import Mathlib

/-!
Shallow embedding of `src/common/inifile.cpp` (class `IniFile`): crash-tolerant
INI-file persistence built on a shadow working copy in the temp directory, a
sibling `~` backup file, a registry (`mSettings`) of open `QSettings` handles,
and a delete-then-copy publish step in `save`.

The filesystem is modelled as an association list from paths to file contents;
a file content is either a parsed list of key/value entries (a well-formed INI
file) or a malformed blob on which the `QSettings` engine reports a non-clean
status.  Every operation returns its outcome together with the filesystem it
leaves behind, so that effects performed before a thrown exception stay
observable.  Whether a `QSettings::sync()` call succeeds is environmental; it
is modelled by a boolean carried on each handle.
-/

set_option maxRecDepth 100000

namespace IniFileModel

/-! ### SHA-256, modelling `QCryptographicHash::hash(bytes, Sha256)` -/

def w32 : Nat := 4294967296

def add32 (a b : Nat) : Nat := (a + b) % w32

def rotr32 (n x : Nat) : Nat := ((x >>> n) ||| (x <<< (32 - n))) % w32

def shr32 (n x : Nat) : Nat := x >>> n

def not32 (x : Nat) : Nat := x ^^^ (w32 - 1)

def sha256K : List Nat :=
  [1116352408, 1899447441, 3049323471, 3921009573, 961987163,
   1508970993, 2453635748, 2870763221, 3624381080, 310598401,
   607225278, 1426881987, 1925078388, 2162078206, 2614888103,
   3248222580, 3835390401, 4022224774, 264347078, 604807628,
   770255983, 1249150122, 1555081692, 1996064986, 2554220882,
   2821834349, 2952996808, 3210313671, 3336571891, 3584528711,
   113926993, 338241895, 666307205, 773529912, 1294757372,
   1396182291, 1695183700, 1986661051, 2177026350, 2456956037,
   2730485921, 2820302411, 3259730800, 3345764771, 3516065817,
   3600352804, 4094571909, 275423344, 430227734, 506948616,
   659060556, 883997877, 958139571, 1322822218, 1537002063,
   1747873779, 1955562222, 2024104815, 2227730452, 2361852424,
   2428436474, 2756734187, 3204031479, 3329325298]

def sha256H0 : List Nat :=
  [1779033703, 3144134277, 1013904242, 2773480762,
   1359893119, 2600822924, 528734635, 1541459225]

def be64 (n : Nat) : List Nat :=
  [(n >>> 56) % 256, (n >>> 48) % 256, (n >>> 40) % 256, (n >>> 32) % 256,
   (n >>> 24) % 256, (n >>> 16) % 256, (n >>> 8) % 256, n % 256]

def padMessage (msg : List Nat) : List Nat :=
  msg ++ (128 :: List.replicate ((119 - msg.length % 64) % 64) 0)
      ++ be64 (8 * msg.length)

def bytesToWords : List Nat → List Nat
  | a :: b :: c :: d :: rest =>
      (((a * 256 + b) * 256 + c) * 256 + d) :: bytesToWords rest
  | _ => []

def toBlocksAux : Nat → List Nat → List (List Nat)
  | 0, _ => []
  | n + 1, ws => ws.take 16 :: toBlocksAux n (ws.drop 16)

def toBlocks (ws : List Nat) : List (List Nat) := toBlocksAux (ws.length / 16) ws

def smallSigma0 (x : Nat) : Nat := (rotr32 7 x) ^^^ ((rotr32 18 x) ^^^ (shr32 3 x))

def smallSigma1 (x : Nat) : Nat := (rotr32 17 x) ^^^ ((rotr32 19 x) ^^^ (shr32 10 x))

def bigSigma0 (x : Nat) : Nat := (rotr32 2 x) ^^^ ((rotr32 13 x) ^^^ (rotr32 22 x))

def bigSigma1 (x : Nat) : Nat := (rotr32 6 x) ^^^ ((rotr32 11 x) ^^^ (rotr32 25 x))

def chFn (x y z : Nat) : Nat := (x &&& y) ^^^ ((not32 x) &&& z)

def majFn (x y z : Nat) : Nat := (x &&& y) ^^^ ((x &&& z) ^^^ (y &&& z))

def scheduleStep (ws : List Nat) : List Nat :=
  let n := ws.length
  ws ++ [add32 (add32 (smallSigma1 (ws.getD (n - 2) 0)) (ws.getD (n - 7) 0))
               (add32 (smallSigma0 (ws.getD (n - 15) 0)) (ws.getD (n - 16) 0))]

def iterate {α : Type} (f : α → α) : Nat → α → α
  | 0, a => a
  | n + 1, a => iterate f n (f a)

def extendSchedule (ws : List Nat) : List Nat := iterate scheduleStep 48 ws

def roundStep (st : List Nat) (wk : Nat × Nat) : List Nat :=
  match st with
  | [a, b, c, d, e, f, g, h] =>
      let t1 := add32 h (add32 (bigSigma1 e) (add32 (chFn e f g) (add32 wk.2 wk.1)))
      let t2 := add32 (bigSigma0 a) (majFn a b c)
      [add32 t1 t2, a, b, c, add32 d t1, e, f, g]
  | other => other

def compress (hv block : List Nat) : List Nat :=
  let st := ((extendSchedule block).zip sha256K).foldl roundStep hv
  (hv.zip st).map (fun p => add32 p.1 p.2)

def wordsToBytes (ws : List Nat) : List Nat :=
  (ws.map (fun w => [(w >>> 24) % 256, (w >>> 16) % 256, (w >>> 8) % 256, w % 256])).flatten

def sha256 (msg : List Nat) : List Nat :=
  wordsToBytes ((toBlocks (bytesToWords (padMessage msg))).foldl compress sha256H0)

/-! ### Base64, URL-safe alphabet, no trailing `=` padding, modelling
`QByteArray::toBase64(Base64UrlEncoding | OmitTrailingEquals)` -/

def b64Char (n : Nat) : Char :=
  "ABCDEFGHIJKLMNOPQRSTUVWXYZabcdefghijklmnopqrstuvwxyz0123456789-_".data.getD n 'A'

def base64UrlNoPad : List Nat → List Char
  | b1 :: b2 :: b3 :: rest =>
      let n := (b1 * 256 + b2) * 256 + b3
      b64Char (n >>> 18) :: b64Char ((n >>> 12) % 64) :: b64Char ((n >>> 6) % 64) ::
        b64Char (n % 64) :: base64UrlNoPad rest
  | [b1, b2] =>
      let n := (b1 * 256 + b2) * 256
      [b64Char (n >>> 18), b64Char ((n >>> 12) % 64), b64Char ((n >>> 6) % 64)]
  | [b1] =>
      let n := b1 * 65536
      [b64Char (n >>> 18), b64Char ((n >>> 12) % 64)]
  | [] => []

/-- Model of `QString::toLocal8Bit` for the ASCII paths this development uses:
the byte sequence of the path string. -/
def strBytes (s : String) : List Nat := s.data.map Char.toNat

/-- Model of `QDir::temp()`. -/
def tempDir : String := "/tmp"

/-- The shadow working-copy path derived in the constructor (lines 49-53 of
`inifile.cpp`): the temp root joined with `EDA4U/` and the URL-safe,
padding-free base64 encoding of the SHA-256 hash of the given path's bytes. -/
def shadowPathOf (sourcePath : String) : String :=
  tempDir ++ "/EDA4U/" ++ String.mk (base64UrlNoPad (sha256 (strBytes sourcePath)))

/-! ### Filesystem model -/

/-- A file's content: either a well-formed INI file (a list of key/value
entries, as the `QSettings` engine parses it) or a malformed blob on which the
engine reports a non-clean status right after opening. -/
inductive IniContent where
  | good (entries : List (String × String))
  | bad
deriving DecidableEq

/-- The filesystem: an association list from paths to contents.  All updates go
through `fsWrite` / `fsRemoveFile`, which act on every binding of the path, so
lookups behave like a function update even on lists with duplicate keys. -/
def FS : Type := List (String × IniContent)

def fsGet : FS → String → Option IniContent
  | [], _ => none
  | e :: es, p => if e.1 = p then some e.2 else fsGet es p

def fsRemoveFile : FS → String → FS
  | [], _ => []
  | e :: es, p => if e.1 = p then fsRemoveFile es p else e :: fsRemoveFile es p

def fsWrite (fs : FS) (p : String) (c : IniContent) : FS :=
  (p, c) :: fsRemoveFile fs p

/-- Model of `FilePath::isExistingFile` / `QFile::exists`. -/
def qfileExists (fs : FS) (p : String) : Bool := (fsGet fs p).isSome

/-- Model of `QFile::remove`: returns `false` when the file does not exist
(which is why the C++ code guards every removal with an existence check). -/
def qfileRemove (fs : FS) (p : String) : Bool × FS :=
  if qfileExists fs p then (true, fsRemoveFile fs p) else (false, fs)

/-- Model of `QFile::copy`: fails when the source is missing or the
destination already exists. -/
def qfileCopy (fs : FS) (src dst : String) : Bool × FS :=
  match fsGet fs src with
  | none => (false, fs)
  | some c => if qfileExists fs dst then (false, fs) else (true, fsWrite fs dst c)

/-- The `if (exists) then remove` pattern the C++ code uses before rewriting a
path.  In this model removing an existing file always succeeds, so the throw
branch guarding a failed removal is unreachable. -/
def guardedRemove (fs : FS) (p : String) : FS :=
  if qfileExists fs p then (qfileRemove fs p).2 else fs

/-! ### Locale-independent decimal integers

`setFileVersion` stores the version with `QString::number(int)` and the
constructor reads it back with `QVariant::toInt` (C-locale decimal parsing). -/

def digitChar (d : Nat) : Char := Char.ofNat (48 + d)

/-- Little-endian base-10 digits, with structural fuel so the kernel can
evaluate it; `natDigits_eq_digits` below identifies it with `Nat.digits`. -/
def natDigits : Nat → Nat → List Nat
  | 0, _ => []
  | fuel + 1, n => if n = 0 then [] else n % 10 :: natDigits fuel (n / 10)

def natToDecimalDigits (n : Nat) : List Char :=
  (natDigits n n).reverse.map digitChar

/-- Model of `QString::number` on naturals (`Nat.digits 10 0 = []`, so zero is
special-cased to `"0"`). -/
def qstringNumberNat (n : Nat) : String :=
  if n = 0 then "0" else String.mk (natToDecimalDigits n)

/-- Model of `QString::number(int)`. -/
def qstringNumber (v : Int) : String :=
  if v < 0 then "-" ++ qstringNumberNat v.natAbs else qstringNumberNat v.toNat

def charDigit (c : Char) : Option Nat :=
  if 48 ≤ c.toNat ∧ c.toNat ≤ 57 then some (c.toNat - 48) else none

def parseNatAux : List Char → Nat → Option Nat
  | [], acc => some acc
  | c :: cs, acc =>
      match charDigit c with
      | some d => parseNatAux cs (10 * acc + d)
      | none => none

/-- Model of the C-locale integer parsing behind `QVariant::toInt` (with the
`ok` flag modelled by `Option`): an optional sign followed by at least one
decimal digit. -/
def qstringToInt (s : String) : Option Int :=
  match s.data with
  | [] => none
  | c :: cs =>
      if c = '-' then
        if cs = [] then none else (parseNatAux cs 0).map (fun n => -(n : Int))
      else if c = '+' then
        if cs = [] then none else (parseNatAux cs 0).map (fun n => (n : Int))
      else (parseNatAux (c :: cs) 0).map (fun n => (n : Int))

/-! ### QSettings handles and the store -/

/-- A `QSettings` object opened on the shadow file: its current entry list plus
an environmental flag saying whether its next `sync()` calls report a clean
status.  Handles are modelled by value; `QList::removeOne` removes the first
equal element. -/
structure Handle where
  entries : List (String × String)
  syncOk : Bool
deriving DecidableEq

/-- The reserved key of the version field (`"meta/file_version"`). -/
def versionKey : String := "meta/file_version"

def entGet : List (String × String) → String → Option String
  | [], _ => none
  | e :: es, k => if e.1 = k then some e.2 else entGet es k

def entRemove : List (String × String) → String → List (String × String)
  | [], _ => []
  | e :: es, k => if e.1 = k then entRemove es k else e :: entRemove es k

/-- Model of `QSettings::setValue`. -/
def entSet (es : List (String × String)) (k v : String) : List (String × String) :=
  (k, v) :: entRemove es k

/-- Model of opening `QSettings(path, IniFormat)` followed by the `status()`
check in `createQSettings`: a missing file opens as an empty, clean settings
object; a malformed file opens with a non-clean status (`none`). -/
def qsettingsOpen (fs : FS) (path : String) : Option (List (String × String)) :=
  match fsGet fs path with
  | none => some []
  | some (IniContent.good es) => some es
  | some IniContent.bad => none

/-- The error taxonomy: the "file does not exist" throw at open time, every
other `RuntimeError` (filesystem or engine failure), and `LogicError`. -/
inductive IniError where
  | notFound
  | ioError
  | logicError
deriving DecidableEq

/-- The `IniFile` object state: `mFilepath` (canonical path), `mTmpFilepath`
(shadow working copy), `mIsReadOnly`, the handle registry `mSettings`, and the
cached version field `mFileVersion`. -/
structure Store where
  mFilepath : String
  mTmpFilepath : String
  mIsReadOnly : Bool
  mSettings : List Handle
  mFileVersion : Int
deriving DecidableEq

/-- Model of `QList::removeOne`: drop the first equal element. -/
def removeOne : List Handle → Handle → List Handle
  | [], _ => []
  | x :: xs, a => if x = a then xs else x :: removeOne xs a

/-- `IniFile::releaseQSettings` (lines 139-154): sync the handle to the shadow
file; on a clean status remove and dispose it, otherwise keep it registered so
a later `save` detects the failure.  The method is `noexcept`: it never
fails. -/
def releaseQSettings (st : Store) (fs : FS) (h : Handle) : Store × FS :=
  if h.syncOk then
    ({st with mSettings := removeOne st.mSettings h},
     fsWrite fs st.mTmpFilepath (IniContent.good h.entries))
  else (st, fs)

/-- `IniFile::setFileVersion` (lines 101-110): `createQSettings()` (open a new
handle on the shadow file, throwing on a non-clean status, and register it),
`setValue` of the version key through that handle, update the cached field,
then `releaseQSettings`.  `syncOk` is the environmental sync behaviour of the
acquired handle. -/
def setFileVersion (st : Store) (fs : FS) (version : Int) (syncOk : Bool) :
    Except IniError Store × FS :=
  match qsettingsOpen fs st.mTmpFilepath with
  | none => (Except.error IniError.ioError, fs)
  | some es =>
      let h : Handle := ⟨entSet es versionKey (qstringNumber version), syncOk⟩
      let st1 : Store :=
        {st with mSettings := st.mSettings ++ [h], mFileVersion := version}
      let r := releaseQSettings st1 fs h
      (Except.ok r.1, r.2)

/-- The `foreach` loop of `IniFile::save` (lines 200-209): sync every
registered handle to the shadow file, throwing `RuntimeError` at the first
handle whose status is not clean. -/
def flushAll : List Handle → String → FS → Except IniError Unit × FS
  | [], _, fs => (Except.ok (), fs)
  | h :: hs, tmp, fs =>
      if h.syncOk then flushAll hs tmp (fsWrite fs tmp (IniContent.good h.entries))
      else (Except.error IniError.ioError, fs)

/-- The target path `save` publishes to. -/
def saveTarget (st : Store) (toOriginal : Bool) : String :=
  if toOriginal then st.mFilepath else st.mFilepath ++ "~"

/-- `IniFile::save` (lines 193-236): reject read-only stores with
`LogicError`; sync every handle to the shadow file (throwing `RuntimeError` on
a non-clean status); delete the existing target file if present; copy the
shadow file onto the target; finally verify the target exists. -/
def save (st : Store) (fs : FS) (toOriginal : Bool) : Except IniError Unit × FS :=
  if st.mIsReadOnly then (Except.error IniError.logicError, fs)
  else
    let filepath := saveTarget st toOriginal
    match flushAll st.mSettings st.mTmpFilepath fs with
    | (Except.error e, fs1) => (Except.error e, fs1)
    | (Except.ok _, fs1) =>
        let fs2 := guardedRemove fs1 filepath
        match qfileCopy fs2 st.mTmpFilepath filepath with
        | (false, fs3) => (Except.error IniError.ioError, fs3)
        | (true, fs3) =>
            if qfileExists fs3 filepath then (Except.ok (), fs3)
            else (Except.error IniError.ioError, fs3)

/-- `IniFile::remove` (lines 156-191): reject read-only stores with
`LogicError`; delete the canonical file and the backup file when they exist
(non-existence is not an error); delete the shadow file only when the handle
registry is empty; aggregate any failed deletion into one `RuntimeError`. -/
def removeIni (st : Store) (fs : FS) : Except IniError Unit × FS :=
  if st.mIsReadOnly then (Except.error IniError.logicError, fs)
  else
    let r1 := if qfileExists fs st.mFilepath then qfileRemove fs st.mFilepath
              else (true, fs)
    let backup := st.mFilepath ++ "~"
    let r2 := if qfileExists r1.2 backup then qfileRemove r1.2 backup
              else (true, r1.2)
    let r3 :=
      if st.mSettings.isEmpty then
        if qfileExists r2.2 st.mTmpFilepath then qfileRemove r2.2 st.mTmpFilepath
        else (true, r2.2)
      else (true, r2.2)
    if r1.1 && (r2.1 && r3.1) then (Except.ok (), r3.2)
    else (Except.error IniError.ioError, r3.2)

/-- The source-selection policy of the constructor (lines 37-40): the backup
file `path ++ "~"` when `restore` is set and the backup exists, the canonical
path otherwise. -/
def sourcePathOf (fs : FS) (filepath : String) (restore : Bool) : String :=
  if restore && qfileExists fs (filepath ++ "~") then filepath ++ "~" else filepath

/-- The version field read in the constructor (lines 75-79): parse the value
under the reserved key, falling back to the sentinel `-1` when the key is
missing or its value unparsable. -/
def readVersion (es : List (String × String)) : Int :=
  match entGet es versionKey with
  | some s => match qstringToInt s with
              | some v => v
              | none => -1
  | none => -1

/-- `IniFile::IniFile` (lines 33-81), the `open` operation: pick the source
(backup if `restore` and it exists, else the canonical file); throw the
not-found error if the source is missing; derive the shadow path from the
SOURCE path's hash; remove a stale shadow file; copy the source onto the
shadow path; read the version field through one transient handle and release
it (`syncOk` is that handle's environmental sync behaviour; a failed release
sync retains the handle in the registry of the returned store). -/
def openIniFile (filepath : String) (restore readOnly syncOk : Bool) (fs : FS) :
    Except IniError Store × FS :=
  let iniFilepath := sourcePathOf fs filepath restore
  if !qfileExists fs iniFilepath then (Except.error IniError.notFound, fs)
  else
    let tmp := shadowPathOf iniFilepath
    let fs1 := guardedRemove fs tmp
    match qfileCopy fs1 iniFilepath tmp with
    | (false, fs2) => (Except.error IniError.ioError, fs2)
    | (true, fs2) =>
        match qsettingsOpen fs2 tmp with
        | none => (Except.error IniError.ioError, fs2)
        | some es =>
            let h : Handle := ⟨es, syncOk⟩
            let st : Store := ⟨filepath, tmp, readOnly, [h], readVersion es⟩
            let r := releaseQSettings st fs2 h
            (Except.ok r.1, r.2)

/-- `IniFile::~IniFile` (lines 83-95): dispose any leaked handles (with a
warning), unconditionally `QFile::remove` the shadow file, and, unless
read-only, the backup file; failures are ignored. -/
def destruct (st : Store) (fs : FS) : FS :=
  let fs1 := (qfileRemove fs st.mTmpFilepath).2
  if !st.mIsReadOnly then (qfileRemove fs1 (st.mFilepath ++ "~")).2 else fs1

/-- `IniFile::create` (lines 242-286): remove a pre-existing file at `path`;
create the parent directories (always succeeds in this model); create an empty
backup placeholder `path ++ "~"`; open with `restore = true`, `readOnly =
false`; when `version > -1`, set the version field and save to the backup
target, destroying the object on failure. -/
def create (filepath : String) (version : Int) (syncOk : Bool) (fs : FS) :
    Except IniError Store × FS :=
  let fs1 := guardedRemove fs filepath
  let fs2 := fsWrite fs1 (filepath ++ "~") (IniContent.good [])
  match openIniFile filepath true false syncOk fs2 with
  | (Except.error e, fs3) => (Except.error e, fs3)
  | (Except.ok obj, fs3) =>
      if version > -1 then
        match setFileVersion obj fs3 version syncOk with
        | (Except.error e, fs4) => (Except.error e, destruct obj fs4)
        | (Except.ok obj2, fs4) =>
            match save obj2 fs4 false with
            | (Except.error e, fs5) => (Except.error e, destruct obj2 fs5)
            | (Except.ok _, fs5) => (Except.ok obj2, fs5)
      else (Except.ok obj, fs3)

/-- The `create(path, v) ; save(true) ; open(path)` pipeline of testable
property 1: `some v` means every step succeeded and the final store's cached
version is `v`. -/
def roundTrip (filepath : String) (v : Int) (restore ro syncOk2 : Bool) (fs : FS) :
    Option Int :=
  match create filepath v true fs with
  | (Except.ok st, fsC) =>
      match save st fsC true with
      | (Except.ok _, fsD) =>
          match openIniFile filepath restore ro syncOk2 fsD with
          | (Except.ok st2, _) => some st2.mFileVersion
          | (Except.error _, _) => none
      | (Except.error _, _) => none
  | (Except.error _, _) => none

/-- Projection of an operation result onto the returned store, `none` on a
thrown exception. -/
def resultStore (r : Except IniError Store × FS) : Option Store :=
  match r.1 with
  | Except.ok st => some st
  | Except.error _ => none

/-! ### Basic lemmas about the filesystem model -/

theorem fsGet_fsRemoveFile_self (fs : FS) (p : String) :
    fsGet (fsRemoveFile fs p) p = none := by
  induction fs with
  | nil => rfl
  | cons e es ih =>
      by_cases h : e.1 = p
      · simpa [fsRemoveFile, h] using ih
      · simpa [fsRemoveFile, fsGet, h] using ih

theorem fsGet_fsRemoveFile_ne (fs : FS) (p q : String) (h : q ≠ p) :
    fsGet (fsRemoveFile fs p) q = fsGet fs q := by
  induction fs with
  | nil => rfl
  | cons e es ih =>
      by_cases he : e.1 = p
      · simp [fsRemoveFile, fsGet, he, Ne.symm h, ih]
      · by_cases hq : e.1 = q <;> simp [fsRemoveFile, fsGet, he, hq, h, Ne.symm h, ih]

theorem fsGet_fsWrite_self (fs : FS) (p : String) (c : IniContent) :
    fsGet (fsWrite fs p c) p = some c := by
  simp [fsWrite, fsGet]

theorem fsGet_fsWrite_ne (fs : FS) (p q : String) (c : IniContent) (h : q ≠ p) :
    fsGet (fsWrite fs p c) q = fsGet fs q := by
  simp [fsWrite, fsGet, Ne.symm h, fsGet_fsRemoveFile_ne fs p q h]

theorem fsGet_guardedRemove_self (fs : FS) (p : String) :
    fsGet (guardedRemove fs p) p = none := by
  unfold guardedRemove
  by_cases h : qfileExists fs p
  · rw [if_pos h]
    unfold qfileRemove
    rw [if_pos h]
    exact fsGet_fsRemoveFile_self fs p
  · rw [if_neg h]
    cases hg : fsGet fs p with
    | none => rfl
    | some c => exact absurd (by simp [qfileExists, hg]) h

theorem fsGet_guardedRemove_ne (fs : FS) (p q : String) (h : q ≠ p) :
    fsGet (guardedRemove fs p) q = fsGet fs q := by
  unfold guardedRemove qfileRemove
  by_cases he : qfileExists fs p <;> simp [he, fsGet_fsRemoveFile_ne fs p q h]

theorem qfileExists_iff (fs : FS) (p : String) :
    qfileExists fs p = true ↔ (fsGet fs p).isSome = true := Iff.rfl

/-- A path is never equal to its backup sibling. -/
theorem ne_append_tilde (p : String) : p ≠ p ++ "~" := by
  intro h
  have hl : p.length = (p ++ "~").length := congrArg String.length h
  rw [String.length_append] at hl
  have h1 : "~".length = 1 := rfl
  omega

/-! ### Decimal round-trip for the version field -/

theorem natDigits_eq_digits (fuel n : Nat) (h : n ≤ fuel) :
    natDigits fuel n = Nat.digits 10 n := by
  induction fuel generalizing n with
  | zero =>
      have hn : n = 0 := Nat.le_zero.mp h
      subst hn
      simp [natDigits]
  | succ fuel ih =>
      by_cases hn : n = 0
      · subst hn
        simp [natDigits]
      · rw [natDigits, if_neg hn, Nat.digits_def' (b := 10) (by norm_num)
          (Nat.pos_of_ne_zero hn), ih (n / 10) (by omega)]

theorem charDigit_digitChar (d : Nat) (h : d < 10) :
    charDigit (digitChar d) = some d := by
  interval_cases d <;> decide

theorem parseNatAux_map_digitChar (ds : List Nat) (acc : Nat) (h : ∀ d ∈ ds, d < 10) :
    parseNatAux (ds.map digitChar) acc =
      some (ds.foldl (fun a d => 10 * a + d) acc) := by
  induction ds generalizing acc with
  | nil => rfl
  | cons d ds ih =>
      simp only [List.map_cons, parseNatAux, charDigit_digitChar d (h d (by simp)),
        List.foldl_cons]
      exact ih (10 * acc + d) (fun x hx => h x (by simp [hx]))

theorem foldl_decimal (l : List Nat) (acc : Nat) :
    l.reverse.foldl (fun a d => 10 * a + d) acc =
      acc * 10 ^ l.length + Nat.ofDigits 10 l := by
  induction l generalizing acc with
  | nil => simp [Nat.ofDigits]
  | cons d ds ih =>
      rw [List.reverse_cons, List.foldl_append, ih, Nat.ofDigits_cons]
      simp [List.foldl_cons, List.foldl_nil, pow_succ]
      ring

theorem parseNatAux_decimal (n : Nat) : parseNatAux (natToDecimalDigits n) 0 = some n := by
  have hd : ∀ d ∈ (natDigits n n).reverse, d < 10 := by
    intro d hdmem
    rw [List.mem_reverse, natDigits_eq_digits n n le_rfl] at hdmem
    exact Nat.digits_lt_base (by norm_num) hdmem
  rw [natToDecimalDigits, parseNatAux_map_digitChar _ 0 hd, foldl_decimal]
  rw [natDigits_eq_digits n n le_rfl, Nat.ofDigits_digits]
  simp

theorem digitChar_head_not_sign (d : Nat) (h : d < 10) :
    digitChar d ≠ '-' ∧ digitChar d ≠ '+' := by
  interval_cases d <;> exact ⟨by decide, by decide⟩

theorem qstringToInt_qstringNumber (v : Int) (hv : 0 ≤ v) :
    qstringToInt (qstringNumber v) = some v := by
  rw [qstringNumber, if_neg (by omega)]
  by_cases h0 : v.toNat = 0
  · have hv0 : v = 0 := by omega
    subst hv0
    decide
  · rw [qstringNumberNat, if_neg h0]
    have hlen : natToDecimalDigits v.toNat ≠ [] := by
      rw [natToDecimalDigits, natDigits_eq_digits _ _ le_rfl]
      simp [Nat.digits_ne_nil_iff_ne_zero, h0]
    cases hds : natToDecimalDigits v.toNat with
    | nil => exact absurd hds hlen
    | cons c cs =>
        have hc : ∃ d, d < 10 ∧ c = digitChar d := by
          have : c ∈ natToDecimalDigits v.toNat := by rw [hds]; simp
          rw [natToDecimalDigits] at this
          obtain ⟨d, hdmem, hdc⟩ := List.mem_map.mp this
          rw [List.mem_reverse, natDigits_eq_digits _ _ le_rfl] at hdmem
          exact ⟨d, Nat.digits_lt_base (by norm_num) hdmem, hdc.symm⟩
        obtain ⟨d, hd10, hcd⟩ := hc
        have hparse := parseNatAux_decimal v.toNat
        rw [hds] at hparse
        rw [qstringToInt]
        show (match c :: cs with
          | [] => none
          | c :: cs => _) = some v
        rw [if_neg (by rw [hcd]; exact (digitChar_head_not_sign d hd10).1),
          if_neg (by rw [hcd]; exact (digitChar_head_not_sign d hd10).2)]
        rw [hparse]
        simp
        omega

/-! ### Behaviour of the flush loop in `save` -/

theorem flushAll_nil (tmp : String) (fs : FS) :
    flushAll [] tmp fs = (Except.ok (), fs) := rfl

theorem flushAll_ok_of_clean (l : List Handle) (tmp : String) (fs : FS)
    (h : ∀ x ∈ l, x.syncOk = true) : (flushAll l tmp fs).1 = Except.ok () := by
  induction l generalizing fs with
  | nil => rfl
  | cons x xs ih =>
      rw [flushAll, if_pos (h x (by simp))]
      exact ih _ (fun y hy => h y (by simp [hy]))

theorem flushAll_get_ne (l : List Handle) (tmp : String) (fs : FS) (q : String)
    (h : q ≠ tmp) : fsGet (flushAll l tmp fs).2 q = fsGet fs q := by
  induction l generalizing fs with
  | nil => rfl
  | cons x xs ih =>
      by_cases hx : x.syncOk = true
      · rw [flushAll, if_pos hx, ih, fsGet_fsWrite_ne _ _ _ _ h]
      · rw [flushAll, if_neg hx]

theorem flushAll_isSome_of_clean (l : List Handle) (tmp : String) (fs : FS)
    (hc : ∀ x ∈ l, x.syncOk = true) (h : (fsGet fs tmp).isSome = true) :
    (fsGet (flushAll l tmp fs).2 tmp).isSome = true := by
  induction l generalizing fs with
  | nil => exact h
  | cons x xs ih =>
      rw [flushAll, if_pos (hc x (by simp))]
      exact ih _ (fun y hy => hc y (by simp [hy])) (by simp [fsGet_fsWrite_self])

theorem flushAll_error_of_unclean (l : List Handle) (tmp : String) (fs : FS)
    (h : ∃ x ∈ l, x.syncOk = false) :
    (flushAll l tmp fs).1 = Except.error IniError.ioError := by
  induction l generalizing fs with
  | nil => simp at h
  | cons x xs ih =>
      by_cases hx : x.syncOk = true
      · rw [flushAll, if_pos hx]
        apply ih
        rcases h with ⟨y, hy, hyo⟩
        rcases List.mem_cons.mp hy with hxy | hxs
        · rw [hxy] at hyo; rw [hyo] at hx; simp at hx
        · exact ⟨y, hxs, hyo⟩
      · rw [flushAll, if_neg hx]

/-! ### Behaviour of `save` -/

theorem save_ok_spec (st : Store) (fs : FS) (toOriginal : Bool)
    (hro : st.mIsReadOnly = false)
    (hclean : ∀ x ∈ st.mSettings, x.syncOk = true)
    (hsome : (fsGet fs st.mTmpFilepath).isSome = true)
    (htgt : st.mTmpFilepath ≠ saveTarget st toOriginal) :
    (save st fs toOriginal).1 = Except.ok () ∧
    fsGet (save st fs toOriginal).2 (saveTarget st toOriginal)
      = fsGet (flushAll st.mSettings st.mTmpFilepath fs).2 st.mTmpFilepath ∧
    ∀ q, q ≠ saveTarget st toOriginal →
      fsGet (save st fs toOriginal).2 q
        = fsGet (flushAll st.mSettings st.mTmpFilepath fs).2 q := by
  rcases hfl : flushAll st.mSettings st.mTmpFilepath fs with ⟨r1, fs1⟩
  have hr1 : r1 = Except.ok () := by
    have h := flushAll_ok_of_clean st.mSettings st.mTmpFilepath fs hclean
    rw [hfl] at h; exact h
  subst hr1
  have hsome1 : (fsGet fs1 st.mTmpFilepath).isSome = true := by
    have h := flushAll_isSome_of_clean st.mSettings st.mTmpFilepath fs hclean hsome
    rw [hfl] at h; exact h
  obtain ⟨c, hc⟩ := Option.isSome_iff_exists.mp hsome1
  have h2 : fsGet (guardedRemove fs1 (saveTarget st toOriginal)) st.mTmpFilepath = some c := by
    rw [fsGet_guardedRemove_ne _ _ _ htgt, hc]
  have h3 : qfileExists (guardedRemove fs1 (saveTarget st toOriginal))
      (saveTarget st toOriginal) = false := by
    simp [qfileExists, fsGet_guardedRemove_self]
  have h4 : qfileExists (fsWrite (guardedRemove fs1 (saveTarget st toOriginal))
      (saveTarget st toOriginal) c) (saveTarget st toOriginal) = true := by
    simp [qfileExists, fsGet_fsWrite_self]
  simp only [save, hro, Bool.false_eq_true, if_false, hfl, qfileCopy, h2, h3,
    if_false, h4, if_true]
  refine ⟨trivial, ?_, ?_⟩
  · rw [fsGet_fsWrite_self, hc]
  · intro q hq
    rw [fsGet_fsWrite_ne _ _ _ _ hq, fsGet_guardedRemove_ne _ _ _ hq]

theorem save_unclean_spec (st : Store) (fs : FS) (toOriginal : Bool)
    (hro : st.mIsReadOnly = false)
    (hbad : ∃ x ∈ st.mSettings, x.syncOk = false)
    (htgt : st.mTmpFilepath ≠ saveTarget st toOriginal) :
    (save st fs toOriginal).1 = Except.error IniError.ioError ∧
    fsGet (save st fs toOriginal).2 (saveTarget st toOriginal)
      = fsGet fs (saveTarget st toOriginal) := by
  rcases hfl : flushAll st.mSettings st.mTmpFilepath fs with ⟨r1, fs1⟩
  have hr1 : r1 = Except.error IniError.ioError := by
    have h := flushAll_error_of_unclean st.mSettings st.mTmpFilepath fs hbad
    rw [hfl] at h; exact h
  subst hr1
  have hkeep : fsGet fs1 (saveTarget st toOriginal) = fsGet fs (saveTarget st toOriginal) := by
    have h := flushAll_get_ne st.mSettings st.mTmpFilepath fs (saveTarget st toOriginal)
      (Ne.symm htgt)
    rw [hfl] at h; exact h
  simp only [save, hro, Bool.false_eq_true, if_false, hfl]
  exact ⟨trivial, hkeep⟩

/-! ### Behaviour of `remove` -/

theorem guarded_step_eq (fs : FS) (p : String) :
    (if qfileExists fs p then qfileRemove fs p else (true, fs))
      = (true, guardedRemove fs p) := by
  by_cases h : qfileExists fs p <;> simp [qfileRemove, guardedRemove, h]

theorem removeIni_eq (st : Store) (fs : FS)
    (hro : st.mIsReadOnly = false) (hreg : st.mSettings = []) :
    removeIni st fs =
      (Except.ok (),
       guardedRemove (guardedRemove (guardedRemove fs st.mFilepath)
         (st.mFilepath ++ "~")) st.mTmpFilepath) := by
  simp only [removeIni, hro, Bool.false_eq_true, if_false, guarded_step_eq, hreg,
    List.isEmpty_nil, if_true, Bool.true_and, Bool.and_self]

theorem fsGet_guardedRemove_none (fs : FS) (p q : String) (h : fsGet fs q = none) :
    fsGet (guardedRemove fs p) q = none := by
  by_cases hpq : q = p
  · rw [hpq]; exact fsGet_guardedRemove_self fs p
  · rw [fsGet_guardedRemove_ne _ _ _ hpq]; exact h

/-! ### Behaviour of `open` (the constructor) -/

theorem open_src_missing (filepath : String) (restore ro syncOk : Bool) (fs : FS)
    (h : fsGet fs (sourcePathOf fs filepath restore) = none) :
    openIniFile filepath restore ro syncOk fs = (Except.error IniError.notFound, fs) := by
  simp [openIniFile, qfileExists, h]

theorem open_tmp_eq_src (filepath : String) (restore ro syncOk : Bool) (fs : FS)
    (c : IniContent)
    (h : fsGet fs (sourcePathOf fs filepath restore) = some c)
    (he : shadowPathOf (sourcePathOf fs filepath restore) = sourcePathOf fs filepath restore) :
    openIniFile filepath restore ro syncOk fs =
      (Except.error IniError.ioError,
       guardedRemove fs (shadowPathOf (sourcePathOf fs filepath restore))) := by
  have hex : qfileExists fs (sourcePathOf fs filepath restore) = true := by
    simp [qfileExists, h]
  have hmiss : fsGet (guardedRemove fs (shadowPathOf (sourcePathOf fs filepath restore)))
      (sourcePathOf fs filepath restore) = none := by
    rw [he]; exact fsGet_guardedRemove_self fs _
  simp only [openIniFile, hex, Bool.not_true, Bool.false_eq_true, if_false,
    qfileCopy, hmiss]

theorem open_src_bad (filepath : String) (restore ro syncOk : Bool) (fs : FS)
    (h : fsGet fs (sourcePathOf fs filepath restore) = some IniContent.bad)
    (hne : shadowPathOf (sourcePathOf fs filepath restore) ≠ sourcePathOf fs filepath restore) :
    openIniFile filepath restore ro syncOk fs =
      (Except.error IniError.ioError,
       fsWrite (guardedRemove fs (shadowPathOf (sourcePathOf fs filepath restore)))
         (shadowPathOf (sourcePathOf fs filepath restore)) IniContent.bad) := by
  have hex : qfileExists fs (sourcePathOf fs filepath restore) = true := by
    simp [qfileExists, h]
  have hsrc1 : fsGet (guardedRemove fs (shadowPathOf (sourcePathOf fs filepath restore)))
      (sourcePathOf fs filepath restore) = some IniContent.bad := by
    rw [fsGet_guardedRemove_ne _ _ _ (Ne.symm hne)]; exact h
  have htmp1 : qfileExists (guardedRemove fs (shadowPathOf (sourcePathOf fs filepath restore)))
      (shadowPathOf (sourcePathOf fs filepath restore)) = false := by
    simp [qfileExists, fsGet_guardedRemove_self]
  simp only [openIniFile, hex, Bool.not_true, Bool.false_eq_true, if_false,
    qfileCopy, hsrc1, htmp1, if_false, qsettingsOpen, fsGet_fsWrite_self]

theorem open_src_good (filepath : String) (restore ro syncOk : Bool) (fs : FS)
    (es : List (String × String))
    (h : fsGet fs (sourcePathOf fs filepath restore) = some (IniContent.good es))
    (hne : shadowPathOf (sourcePathOf fs filepath restore) ≠ sourcePathOf fs filepath restore) :
    openIniFile filepath restore ro syncOk fs =
      (Except.ok ⟨filepath, shadowPathOf (sourcePathOf fs filepath restore), ro,
         if syncOk then [] else [⟨es, syncOk⟩], readVersion es⟩,
       if syncOk then
         fsWrite (fsWrite (guardedRemove fs (shadowPathOf (sourcePathOf fs filepath restore)))
             (shadowPathOf (sourcePathOf fs filepath restore)) (IniContent.good es))
           (shadowPathOf (sourcePathOf fs filepath restore)) (IniContent.good es)
       else
         fsWrite (guardedRemove fs (shadowPathOf (sourcePathOf fs filepath restore)))
           (shadowPathOf (sourcePathOf fs filepath restore)) (IniContent.good es)) := by
  have hex : qfileExists fs (sourcePathOf fs filepath restore) = true := by
    simp [qfileExists, h]
  have hsrc1 : fsGet (guardedRemove fs (shadowPathOf (sourcePathOf fs filepath restore)))
      (sourcePathOf fs filepath restore) = some (IniContent.good es) := by
    rw [fsGet_guardedRemove_ne _ _ _ (Ne.symm hne)]; exact h
  have htmp1 : qfileExists (guardedRemove fs (shadowPathOf (sourcePathOf fs filepath restore)))
      (shadowPathOf (sourcePathOf fs filepath restore)) = false := by
    simp [qfileExists, fsGet_guardedRemove_self]
  simp only [openIniFile, hex, Bool.not_true, Bool.false_eq_true, if_false,
    qfileCopy, hsrc1, htmp1, if_false, qsettingsOpen, fsGet_fsWrite_self,
    releaseQSettings]
  cases syncOk with
  | false => simp
  | true => simp [removeOne]

/-! ### Behaviour of `setFileVersion` -/

theorem setFileVersion_empty_spec (st : Store) (fs : FS) (v : Int)
    (es : List (String × String))
    (hreg : st.mSettings = [])
    (hts : fsGet fs st.mTmpFilepath = some (IniContent.good es)) :
    setFileVersion st fs v true =
      (Except.ok ⟨st.mFilepath, st.mTmpFilepath, st.mIsReadOnly, [], v⟩,
       fsWrite fs st.mTmpFilepath
         (IniContent.good (entSet es versionKey (qstringNumber v)))) := by
  simp only [setFileVersion, qsettingsOpen, hts, releaseQSettings, hreg]
  simp [removeOne]

/-- `open_src_good` specialised to a transient handle whose release sync
succeeds, with the result store in constructor form. -/
theorem open_src_good_sync (filepath : String) (restore ro : Bool) (fs : FS)
    (es : List (String × String))
    (h : fsGet fs (sourcePathOf fs filepath restore) = some (IniContent.good es))
    (hne : shadowPathOf (sourcePathOf fs filepath restore) ≠ sourcePathOf fs filepath restore) :
    openIniFile filepath restore ro true fs =
      (Except.ok ⟨filepath, shadowPathOf (sourcePathOf fs filepath restore), ro,
         [], readVersion es⟩,
       fsWrite (fsWrite (guardedRemove fs (shadowPathOf (sourcePathOf fs filepath restore)))
           (shadowPathOf (sourcePathOf fs filepath restore)) (IniContent.good es))
         (shadowPathOf (sourcePathOf fs filepath restore)) (IniContent.good es)) := by
  rw [open_src_good filepath restore ro true fs es h hne]
  simp

/-! ### Behaviour of `create` -/

theorem create_spec (filepath : String) (v : Int) (fs : FS)
    (hv : 0 ≤ v)
    (h1 : shadowPathOf (filepath ++ "~") ≠ filepath)
    (h2 : shadowPathOf (filepath ++ "~") ≠ filepath ++ "~") :
    (create filepath v true fs).1
      = Except.ok ⟨filepath, shadowPathOf (filepath ++ "~"), false, [], v⟩ ∧
    fsGet (create filepath v true fs).2 filepath = none ∧
    fsGet (create filepath v true fs).2 (filepath ++ "~")
      = some (IniContent.good (entSet [] versionKey (qstringNumber v))) ∧
    fsGet (create filepath v true fs).2 (shadowPathOf (filepath ++ "~"))
      = some (IniContent.good (entSet [] versionKey (qstringNumber v))) := by
  have hbk : filepath ≠ filepath ++ "~" := ne_append_tilde filepath
  have hsrc : sourcePathOf (fsWrite (guardedRemove fs filepath) (filepath ++ "~")
      (IniContent.good [])) filepath true = filepath ++ "~" := by
    simp [sourcePathOf, qfileExists, fsGet_fsWrite_self]
  have hopen := open_src_good_sync filepath true false
    (fsWrite (guardedRemove fs filepath) (filepath ++ "~") (IniContent.good [])) []
    (by rw [hsrc]; exact fsGet_fsWrite_self _ _ _) (by rw [hsrc]; exact h2)
  rw [hsrc] at hopen
  have hrv : readVersion ([] : List (String × String)) = -1 := rfl
  rw [hrv] at hopen
  have hsfv := setFileVersion_empty_spec
    (⟨filepath, shadowPathOf (filepath ++ "~"), false, [], -1⟩ : Store)
    (fsWrite (fsWrite (guardedRemove (fsWrite (guardedRemove fs filepath)
        (filepath ++ "~") (IniContent.good [])) (shadowPathOf (filepath ++ "~")))
        (shadowPathOf (filepath ++ "~")) (IniContent.good []))
      (shadowPathOf (filepath ++ "~")) (IniContent.good []))
    v [] rfl (fsGet_fsWrite_self _ _ _)
  have hsave := save_ok_spec
    (⟨filepath, shadowPathOf (filepath ++ "~"), false, [], v⟩ : Store)
    (fsWrite (fsWrite (fsWrite (guardedRemove (fsWrite (guardedRemove fs filepath)
        (filepath ++ "~") (IniContent.good [])) (shadowPathOf (filepath ++ "~")))
        (shadowPathOf (filepath ++ "~")) (IniContent.good []))
      (shadowPathOf (filepath ++ "~")) (IniContent.good []))
      (shadowPathOf (filepath ++ "~"))
      (IniContent.good (entSet [] versionKey (qstringNumber v))))
    false rfl (by intro x hx; simp at hx) (by simp [fsGet_fsWrite_self]) h2
  rcases hs : save
    (⟨filepath, shadowPathOf (filepath ++ "~"), false, [], v⟩ : Store)
    (fsWrite (fsWrite (fsWrite (guardedRemove (fsWrite (guardedRemove fs filepath)
        (filepath ++ "~") (IniContent.good [])) (shadowPathOf (filepath ++ "~")))
        (shadowPathOf (filepath ++ "~")) (IniContent.good []))
      (shadowPathOf (filepath ++ "~")) (IniContent.good []))
      (shadowPathOf (filepath ++ "~"))
      (IniContent.good (entSet [] versionKey (qstringNumber v))))
    false with ⟨r5, fs5⟩
  rw [hs] at hsave
  obtain ⟨hr5, hget1, hget2⟩ := hsave
  simp only at hr5 hget1 hget2
  subst hr5
  simp only [flushAll_nil] at hget1 hget2
  simp only [create, hopen, hsfv, hs, if_pos (show v > -1 by omega)]
  refine ⟨trivial, ?_, ?_, ?_⟩
  · rw [hget2 filepath hbk, fsGet_fsWrite_ne _ _ _ _ (Ne.symm h1),
      fsGet_fsWrite_ne _ _ _ _ (Ne.symm h1), fsGet_fsWrite_ne _ _ _ _ (Ne.symm h1),
      fsGet_guardedRemove_ne _ _ _ (Ne.symm h1), fsGet_fsWrite_ne _ _ _ _ hbk,
      fsGet_guardedRemove_self]
  · rw [show saveTarget (⟨filepath, shadowPathOf (filepath ++ "~"), false, [], v⟩ : Store)
        false = filepath ++ "~" from rfl] at hget1
    rw [hget1, fsGet_fsWrite_self]
  · rw [hget2 (shadowPathOf (filepath ++ "~")) h2, fsGet_fsWrite_self]

/-! ### The claims -/

/-- C2: for every writable store, if flushing any registered handle reports a
non-clean status, `save(toOriginal)` fails with `IOError` before touching the
target file: the target's content is neither deleted nor overwritten. -/
theorem spec2proof_c2_unclean_flush_aborts (st : Store) (fs : FS) (toOriginal : Bool)
    (hro : st.mIsReadOnly = false)
    (hbad : ∃ x ∈ st.mSettings, x.syncOk = false)
    (htgt : st.mTmpFilepath ≠ saveTarget st toOriginal) :
    (save st fs toOriginal).1 = Except.error IniError.ioError ∧
    fsGet (save st fs toOriginal).2 (saveTarget st toOriginal)
      = fsGet fs (saveTarget st toOriginal) :=
  save_unclean_spec st fs toOriginal hro hbad htgt

theorem spec2proof_c2_witness :
    (save ⟨"/a", "/t", false, [⟨[], false⟩], 0⟩ [("/a", IniContent.good [])] true).1
        = Except.error IniError.ioError ∧
    fsGet (save ⟨"/a", "/t", false, [⟨[], false⟩], 0⟩ [("/a", IniContent.good [])] true).2
        (saveTarget ⟨"/a", "/t", false, [⟨[], false⟩], 0⟩ true)
      = fsGet [("/a", IniContent.good [])]
          (saveTarget ⟨"/a", "/t", false, [⟨[], false⟩], 0⟩ true) :=
  spec2proof_c2_unclean_flush_aborts ⟨"/a", "/t", false, [⟨[], false⟩], 0⟩
    [("/a", IniContent.good [])] true rfl (by decide) (by decide)

/-- C6: on a store whose read-only flag is set, both `save` (for either
target) and `remove` fail with `LogicError` and leave the filesystem
untouched. -/
theorem spec2proof_c6_readonly_rejected (st : Store) (fs : FS) (toOriginal : Bool)
    (h : st.mIsReadOnly = true) :
    save st fs toOriginal = (Except.error IniError.logicError, fs) ∧
    removeIni st fs = (Except.error IniError.logicError, fs) := by
  constructor
  · simp [save, h]
  · simp [removeIni, h]

theorem spec2proof_c6_witness :
    save ⟨"/a", "/t", true, [], 0⟩ [("/a", IniContent.good [])] true
        = (Except.error IniError.logicError, [("/a", IniContent.good [])]) ∧
    removeIni ⟨"/a", "/t", true, [], 0⟩ [("/a", IniContent.good [])]
        = (Except.error IniError.logicError, [("/a", IniContent.good [])]) :=
  spec2proof_c6_readonly_rejected ⟨"/a", "/t", true, [], 0⟩
    [("/a", IniContent.good [])] true rfl

/-- C8: on a store with an empty handle registry, a first `remove()` succeeds
and leaves the canonical, backup, and shadow files all absent, and a second
`remove()` on the resulting filesystem succeeds as well, because
non-existence of those files is not treated as an error. -/
theorem spec2proof_c8_remove_idempotent (st : Store) (fs : FS)
    (hreg : st.mSettings = []) (hro : st.mIsReadOnly = false) :
    (removeIni st fs).1 = Except.ok () ∧
    fsGet (removeIni st fs).2 st.mFilepath = none ∧
    fsGet (removeIni st fs).2 (st.mFilepath ++ "~") = none ∧
    fsGet (removeIni st fs).2 st.mTmpFilepath = none ∧
    (removeIni st (removeIni st fs).2).1 = Except.ok () := by
  rw [removeIni_eq st fs hro hreg]
  refine ⟨rfl, ?_, ?_, ?_, ?_⟩
  · exact fsGet_guardedRemove_none _ _ _
      (fsGet_guardedRemove_none _ _ _ (fsGet_guardedRemove_self _ _))
  · exact fsGet_guardedRemove_none _ _ _ (fsGet_guardedRemove_self _ _)
  · exact fsGet_guardedRemove_self _ _
  · rw [removeIni_eq st _ hro hreg]

theorem spec2proof_c8_witness :
    (removeIni ⟨"/a", "/t", false, [], 0⟩
        [("/a", IniContent.good []), ("/a~", IniContent.bad)]).1 = Except.ok () ∧
    fsGet (removeIni ⟨"/a", "/t", false, [], 0⟩
        [("/a", IniContent.good []), ("/a~", IniContent.bad)]).2 "/a" = none ∧
    fsGet (removeIni ⟨"/a", "/t", false, [], 0⟩
        [("/a", IniContent.good []), ("/a~", IniContent.bad)]).2 ("/a" ++ "~") = none ∧
    fsGet (removeIni ⟨"/a", "/t", false, [], 0⟩
        [("/a", IniContent.good []), ("/a~", IniContent.bad)]).2 "/t" = none ∧
    (removeIni ⟨"/a", "/t", false, [], 0⟩ (removeIni ⟨"/a", "/t", false, [], 0⟩
        [("/a", IniContent.good []), ("/a~", IniContent.bad)]).2).1 = Except.ok () :=
  spec2proof_c8_remove_idempotent ⟨"/a", "/t", false, [], 0⟩
    [("/a", IniContent.good []), ("/a~", IniContent.bad)] rfl rfl

/-- C10: when the chosen source file is malformed, `open` fails with the
engine's `IOError` after materializing the shadow copy, and the shadow file is
left behind on disk: the failing open performs no cleanup. -/
theorem spec2proof_c10_shadow_left_behind (filepath : String) (restore ro syncOk : Bool)
    (fs : FS)
    (hsrc : fsGet fs (sourcePathOf fs filepath restore) = some IniContent.bad)
    (hne : shadowPathOf (sourcePathOf fs filepath restore)
      ≠ sourcePathOf fs filepath restore) :
    (openIniFile filepath restore ro syncOk fs).1 = Except.error IniError.ioError ∧
    fsGet (openIniFile filepath restore ro syncOk fs).2
        (shadowPathOf (sourcePathOf fs filepath restore)) = some IniContent.bad := by
  rw [open_src_bad filepath restore ro syncOk fs hsrc hne]
  exact ⟨rfl, fsGet_fsWrite_self _ _ _⟩

theorem spec2proof_c10_witness :
    (openIniFile "/a" false false true [("/a", IniContent.bad)]).1
        = Except.error IniError.ioError ∧
    fsGet (openIniFile "/a" false false true [("/a", IniContent.bad)]).2
        (shadowPathOf (sourcePathOf [("/a", IniContent.bad)] "/a" false))
      = some IniContent.bad :=
  spec2proof_c10_shadow_left_behind "/a" false false true
    [("/a", IniContent.bad)] (by decide) (by decide)

/-- C1 counterexample: the constructor hashes the path of the CHOSEN SOURCE
file (line 50 hashes `iniFilepath`, not `mFilepath`), so with a backup present
and `restore` set, the shadow path is derived from the backup path and differs
from the value the claim prescribes (the hash of the canonical path). -/
theorem spec2proof_c1_counterexample :
    (resultStore (openIniFile "/a" true false true
        [("/a", IniContent.good []), ("/a~", IniContent.good [])])).map Store.mTmpFilepath
      = some (shadowPathOf "/a~")
    ∧ shadowPathOf "/a~" ≠ shadowPathOf "/a" := by
  constructor
  · decide
  · decide

/-- C1 (amended): the shadow working-copy path is derived deterministically
from the path of the chosen source file — the backup path when `restore` is
set and the backup exists, the canonical path otherwise: it equals the fixed
temp root joined with the URL-safe, padding-free base64 encoding of the
SHA-256 hash of that source path's bytes, so opens agreeing on the restore
flag and on backup existence yield the same shadow path. -/
theorem spec2proof_c1_shadow_path (filepath : String) (restore ro syncOk : Bool)
    (fs : FS)
    (h : (resultStore (openIniFile filepath restore ro syncOk fs)).isSome = true) :
    (resultStore (openIniFile filepath restore ro syncOk fs)).map Store.mTmpFilepath
      = some (shadowPathOf (sourcePathOf fs filepath restore)) := by
  cases hsrc : fsGet fs (sourcePathOf fs filepath restore) with
  | none =>
      rw [open_src_missing filepath restore ro syncOk fs hsrc] at h
      simp [resultStore] at h
  | some c =>
      by_cases he : shadowPathOf (sourcePathOf fs filepath restore)
          = sourcePathOf fs filepath restore
      · rw [open_tmp_eq_src filepath restore ro syncOk fs c hsrc he] at h
        simp [resultStore] at h
      · cases c with
        | bad =>
            rw [open_src_bad filepath restore ro syncOk fs hsrc he] at h
            simp [resultStore] at h
        | good es =>
            rw [open_src_good filepath restore ro syncOk fs es hsrc he]
            simp [resultStore]

theorem spec2proof_c1_witness :
    (resultStore (openIniFile "/a" false false true [("/a", IniContent.good [])])).map
        Store.mTmpFilepath
      = some (shadowPathOf (sourcePathOf [("/a", IniContent.good [])] "/a" false)) :=
  spec2proof_c1_shadow_path "/a" false false true [("/a", IniContent.good [])] (by decide)

/-- C5: `open` materializes the shadow copy from the backup when `restore` is
set and the backup exists, from the canonical file otherwise, and fails with
the not-found error exactly when the chosen source file does not exist. -/
theorem spec2proof_c5_open_source_selection (filepath : String)
    (restore ro syncOk : Bool) (fs : FS) :
    ((openIniFile filepath restore ro syncOk fs).1 = Except.error IniError.notFound
      ↔ fsGet fs (sourcePathOf fs filepath restore) = none)
    ∧ (∀ st fs2, openIniFile filepath restore ro syncOk fs = (Except.ok st, fs2) →
        fsGet fs2 st.mTmpFilepath = fsGet fs (sourcePathOf fs filepath restore)) := by
  constructor
  · constructor
    · intro h
      cases hsrc : fsGet fs (sourcePathOf fs filepath restore) with
      | none => rfl
      | some c =>
          exfalso
          by_cases he : shadowPathOf (sourcePathOf fs filepath restore)
              = sourcePathOf fs filepath restore
          · rw [open_tmp_eq_src filepath restore ro syncOk fs c hsrc he] at h
            simp at h
          · cases c with
            | bad =>
                rw [open_src_bad filepath restore ro syncOk fs hsrc he] at h
                simp at h
            | good es =>
                rw [open_src_good filepath restore ro syncOk fs es hsrc he] at h
                simp at h
    · intro h
      rw [open_src_missing filepath restore ro syncOk fs h]
  · intro st fs2 h
    cases hsrc : fsGet fs (sourcePathOf fs filepath restore) with
    | none =>
        rw [open_src_missing filepath restore ro syncOk fs hsrc] at h
        simp at h
    | some c =>
        by_cases he : shadowPathOf (sourcePathOf fs filepath restore)
            = sourcePathOf fs filepath restore
        · rw [open_tmp_eq_src filepath restore ro syncOk fs c hsrc he] at h
          simp at h
        · cases c with
          | bad =>
              rw [open_src_bad filepath restore ro syncOk fs hsrc he] at h
              simp at h
          | good es =>
              rw [open_src_good filepath restore ro syncOk fs es hsrc he] at h
              simp only [Prod.mk.injEq, Except.ok.injEq] at h
              obtain ⟨hst, hfs⟩ := h
              subst hst
              subst hfs
              cases syncOk <;> simp [fsGet_fsWrite_self]

theorem spec2proof_c5_witness :
    ((openIniFile "/a" true false true [("/b", IniContent.good [])]).1
        = Except.error IniError.notFound
      ↔ fsGet [("/b", IniContent.good [])]
          (sourcePathOf [("/b", IniContent.good [])] "/a" true) = none) :=
  (spec2proof_c5_open_source_selection "/a" true false true
    [("/b", IniContent.good [])]).1

/-- C7 counterexample: `releaseQSettings` is `noexcept` and swallows a failed
sync by retaining the handle, so at this input — an empty registry, a
well-formed shadow file, and a transient handle whose release sync fails —
`setFileVersion` SUCCEEDS (returning the updated cached version and the
retained handle), contradicting the claim that a flush failure during the
release step makes it fail. -/
theorem spec2proof_c7_counterexample :
    (resultStore (setFileVersion ⟨"/a", "/t", false, [], 0⟩
        [("/t", IniContent.good [])] 5 false)).map
        (fun s => (s.mFileVersion, s.mSettings.length)) = some (5, 1) := by
  decide

/-- C7 (amended): `setFileVersion(version)` acquires a handle, writes the
version key, updates the cached version field, and releases the handle; it
fails exactly when the acquire step fails (the engine reports a non-clean
status opening the shadow file).  A flush failure during the release step
does NOT make it fail: the handle is retained in the registry so that a later
`save` detects the failure. -/
theorem spec2proof_c7_set_file_version (st : Store) (fs : FS) (version : Int)
    (syncOk : Bool) :
    ((setFileVersion st fs version syncOk).1 = Except.error IniError.ioError
      ↔ qsettingsOpen fs st.mTmpFilepath = none)
    ∧ (∀ st2 fs2, setFileVersion st fs version syncOk = (Except.ok st2, fs2) →
        st2.mFileVersion = version ∧
        (syncOk = false → st2.mSettings.length = st.mSettings.length + 1)) := by
  cases hq : qsettingsOpen fs st.mTmpFilepath with
  | none =>
      constructor
      · simp [setFileVersion, hq]
      · intro st2 fs2 h
        rw [setFileVersion] at h
        rw [hq] at h
        simp at h
  | some es =>
      constructor
      · cases syncOk <;>
          simp [setFileVersion, hq, releaseQSettings]
      · intro st2 fs2 h
        rw [setFileVersion] at h
        rw [hq] at h
        cases syncOk with
        | false =>
            simp only [releaseQSettings, Bool.false_eq_true, if_false,
              Prod.mk.injEq, Except.ok.injEq] at h
            obtain ⟨hst, _⟩ := h
            subst hst
            simp [List.length_append]
        | true =>
            simp only [releaseQSettings, if_true, Prod.mk.injEq, Except.ok.injEq] at h
            obtain ⟨hst, _⟩ := h
            subst hst
            simp

theorem spec2proof_c7_witness :
    ((setFileVersion ⟨"/a", "/t", false, [], 0⟩ [("/t", IniContent.bad)] 5 true).1
        = Except.error IniError.ioError
      ↔ qsettingsOpen [("/t", IniContent.bad)] "/t" = none) :=
  (spec2proof_c7_set_file_version ⟨"/a", "/t", false, [], 0⟩
    [("/t", IniContent.bad)] 5 true).1

/-- C9: when the chosen source file is well-formed but lacks the reserved key
`meta/file_version`, or its value is unparsable as an integer, `open` succeeds
and the store's cached version field is the "unknown version" sentinel `-1`. -/
theorem spec2proof_c9_version_sentinel (filepath : String) (restore ro syncOk : Bool)
    (fs : FS) (es : List (String × String))
    (hsrc : fsGet fs (sourcePathOf fs filepath restore) = some (IniContent.good es))
    (hne : shadowPathOf (sourcePathOf fs filepath restore)
      ≠ sourcePathOf fs filepath restore)
    (hver : entGet es versionKey = none ∨
      ∃ s, entGet es versionKey = some s ∧ qstringToInt s = none) :
    (resultStore (openIniFile filepath restore ro syncOk fs)).map Store.mFileVersion
      = some (-1) := by
  rw [open_src_good filepath restore ro syncOk fs es hsrc hne]
  have hv : readVersion es = -1 := by
    rcases hver with h | ⟨s, hs, hp⟩ <;> simp [readVersion, *]
  simp [resultStore, hv]

theorem spec2proof_c9_witness :
    (resultStore (openIniFile "/a" false false true
        [("/a", IniContent.good [("meta/file_version", "x")])])).map Store.mFileVersion
      = some (-1) :=
  spec2proof_c9_version_sentinel "/a" false false true
    [("/a", IniContent.good [("meta/file_version", "x")])]
    [("meta/file_version", "x")] (by decide) (by decide)
    (Or.inr ⟨"x", by decide, by decide⟩)

/-- C3: on a writable store whose handles all flush cleanly, `save(false)`
succeeds, leaves the canonical file's content unchanged, and makes the backup
file's content equal to the shadow copy's content; a subsequent `save(true)`
then succeeds and makes the canonical file's content equal to the shadow
copy's content. -/
theorem spec2proof_c3_draft_isolation (st : Store) (fs : FS)
    (hro : st.mIsReadOnly = false)
    (hclean : ∀ x ∈ st.mSettings, x.syncOk = true)
    (hsome : (fsGet fs st.mTmpFilepath).isSome = true)
    (h1 : st.mTmpFilepath ≠ st.mFilepath)
    (h2 : st.mTmpFilepath ≠ st.mFilepath ++ "~") :
    (save st fs false).1 = Except.ok () ∧
    fsGet (save st fs false).2 st.mFilepath = fsGet fs st.mFilepath ∧
    fsGet (save st fs false).2 (st.mFilepath ++ "~")
      = fsGet (save st fs false).2 st.mTmpFilepath ∧
    (save st (save st fs false).2 true).1 = Except.ok () ∧
    fsGet (save st (save st fs false).2 true).2 st.mFilepath
      = fsGet (save st (save st fs false).2 true).2 st.mTmpFilepath := by
  have ht_false : saveTarget st false = st.mFilepath ++ "~" := rfl
  have ht_true : saveTarget st true = st.mFilepath := rfl
  obtain ⟨ha, hb, hc⟩ := save_ok_spec st fs false hro hclean hsome
    (by rw [ht_false]; exact h2)
  rw [ht_false] at hb hc
  have hcanon : fsGet (save st fs false).2 st.mFilepath = fsGet fs st.mFilepath := by
    rw [hc st.mFilepath (ne_append_tilde st.mFilepath)]
    exact flushAll_get_ne _ _ _ _ (Ne.symm h1)
  have htmp_pres : fsGet (save st fs false).2 st.mTmpFilepath
      = fsGet (flushAll st.mSettings st.mTmpFilepath fs).2 st.mTmpFilepath := hc _ h2
  have hsome2 : (fsGet (save st fs false).2 st.mTmpFilepath).isSome = true := by
    rw [htmp_pres]
    exact flushAll_isSome_of_clean _ _ _ hclean hsome
  obtain ⟨hd, he, hf⟩ := save_ok_spec st ((save st fs false).2) true hro hclean hsome2
    (by rw [ht_true]; exact h1)
  rw [ht_true] at he hf
  refine ⟨ha, hcanon, ?_, hd, ?_⟩
  · rw [hb, htmp_pres]
  · rw [he, hf st.mTmpFilepath h1]

theorem spec2proof_c3_witness :
    (save ⟨"/a", "/t", false, [⟨[("k", "v")], true⟩], 0⟩
        [("/a", IniContent.good []), ("/t", IniContent.good [])] false).1
      = Except.ok () ∧
    fsGet (save ⟨"/a", "/t", false, [⟨[("k", "v")], true⟩], 0⟩
        [("/a", IniContent.good []), ("/t", IniContent.good [])] false).2 "/a"
      = fsGet [("/a", IniContent.good []), ("/t", IniContent.good [])] "/a" ∧
    fsGet (save ⟨"/a", "/t", false, [⟨[("k", "v")], true⟩], 0⟩
        [("/a", IniContent.good []), ("/t", IniContent.good [])] false).2 ("/a" ++ "~")
      = fsGet (save ⟨"/a", "/t", false, [⟨[("k", "v")], true⟩], 0⟩
          [("/a", IniContent.good []), ("/t", IniContent.good [])] false).2 "/t" ∧
    (save ⟨"/a", "/t", false, [⟨[("k", "v")], true⟩], 0⟩
        (save ⟨"/a", "/t", false, [⟨[("k", "v")], true⟩], 0⟩
          [("/a", IniContent.good []), ("/t", IniContent.good [])] false).2 true).1
      = Except.ok () ∧
    fsGet (save ⟨"/a", "/t", false, [⟨[("k", "v")], true⟩], 0⟩
        (save ⟨"/a", "/t", false, [⟨[("k", "v")], true⟩], 0⟩
          [("/a", IniContent.good []), ("/t", IniContent.good [])] false).2 true).2 "/a"
      = fsGet (save ⟨"/a", "/t", false, [⟨[("k", "v")], true⟩], 0⟩
          (save ⟨"/a", "/t", false, [⟨[("k", "v")], true⟩], 0⟩
            [("/a", IniContent.good []), ("/t", IniContent.good [])] false).2 true).2 "/t" :=
  spec2proof_c3_draft_isolation ⟨"/a", "/t", false, [⟨[("k", "v")], true⟩], 0⟩
    [("/a", IniContent.good []), ("/t", IniContent.good [])]
    rfl (by decide) (by decide) (by decide) (by decide)

/-- C4: for every path and every version `v ≥ 0` (and any shadow path that
does not collide with the store's own files), `create(path, v)` followed by
`save(true)` followed by `open(path)` succeeds at every step and yields a
store whose cached version field equals `v`. -/
theorem spec2proof_c4_roundtrip (filepath : String) (v : Int)
    (restore ro syncOk2 : Bool) (fs : FS)
    (hv : 0 ≤ v)
    (h1 : shadowPathOf (filepath ++ "~") ≠ filepath)
    (h2 : shadowPathOf (filepath ++ "~") ≠ filepath ++ "~")
    (h3 : shadowPathOf filepath ≠ filepath) :
    roundTrip filepath v restore ro syncOk2 fs = some v := by
  obtain ⟨hcr, hmain, hbk, htmp⟩ := create_spec filepath v fs hv h1 h2
  rcases hc : create filepath v true fs with ⟨r1, fsC⟩
  rw [hc] at hcr hmain hbk htmp
  simp only at hcr hmain hbk htmp
  subst hcr
  obtain ⟨hd, he, hf⟩ := save_ok_spec
    (⟨filepath, shadowPathOf (filepath ++ "~"), false, [], v⟩ : Store) fsC true
    rfl (by intro x hx; simp at hx) (by rw [htmp]; rfl) h1
  rcases hs : save (⟨filepath, shadowPathOf (filepath ++ "~"), false, [], v⟩ : Store)
      fsC true with ⟨r2, fsD⟩
  rw [hs] at hd he hf
  simp only at hd he hf
  subst hd
  simp only [flushAll_nil] at he hf
  have hD_main : fsGet fsD filepath
      = some (IniContent.good (entSet [] versionKey (qstringNumber v))) := by
    rw [show saveTarget (⟨filepath, shadowPathOf (filepath ++ "~"), false, [], v⟩ : Store)
        true = filepath from rfl] at he
    rw [he, htmp]
  have hD_bk : fsGet fsD (filepath ++ "~")
      = some (IniContent.good (entSet [] versionKey (qstringNumber v))) := by
    rw [hf (filepath ++ "~") (Ne.symm (ne_append_tilde filepath)), hbk]
  have hsrcD : sourcePathOf fsD filepath restore
      = if restore then filepath ++ "~" else filepath := by
    simp [sourcePathOf, qfileExists, hD_bk]
  have hgetD : fsGet fsD (sourcePathOf fsD filepath restore)
      = some (IniContent.good (entSet [] versionKey (qstringNumber v))) := by
    rw [hsrcD]
    cases restore <;> simp [hD_main, hD_bk]
  have hneD : shadowPathOf (sourcePathOf fsD filepath restore)
      ≠ sourcePathOf fsD filepath restore := by
    rw [hsrcD]
    cases restore <;> simp [h2, h3]
  have hopen := open_src_good filepath restore ro syncOk2 fsD
    (entSet [] versionKey (qstringNumber v)) hgetD hneD
  simp only [roundTrip, hc, hs, hopen]
  simp [readVersion, entSet, entGet, entRemove, qstringToInt_qstringNumber v hv]

theorem spec2proof_c4_witness :
    roundTrip "/a" 5 false false true [] = some 5 :=
  spec2proof_c4_roundtrip "/a" 5 false false true [] (by omega)
    (by decide) (by decide) (by decide)

end IniFileModel
